import Mathlib

/-!
Shallow embedding of the Advance Expense Manager (src/app.py).

The app is a Streamlit UI over a SQLite database with four tables
(users, categories, expenses, budgets).  Monetary amounts are SQLite
REAL values; they are modelled here as `Rat` (exact decimal arithmetic,
as the spec's fixed-point option suggests).  Dates are stored as ISO
`YYYY-MM-DD` TEXT (`add_expense` inserts `dt.isoformat()`), modelled as
`String`; lexicographic order on such strings is calendar order.

Each table is modelled as a Lean `List` of row structures, in rowid
(insertion) order, which is the order a SQLite full scan without
ORDER BY returns.
-/

namespace ExpenseApp

/-- A row of the `expenses` table (app.py lines 40-49): id, user_id,
dt (ISO date TEXT), category, description, amount (REAL, modelled as
`Rat`), payment. -/
structure ExpenseRecord where
  id : Nat
  user_id : Nat
  dt : String
  category : String
  description : String
  amount : Rat
  payment : String
  deriving DecidableEq, Repr

/-- A row of the `budgets` table (app.py lines 50-58): id, user_id,
month ('YYYY-MM'), category, amount, with a UNIQUE(user_id, month,
category) constraint. -/
structure BudgetRow where
  id : Nat
  user_id : Nat
  month : String
  category : String
  amount : Rat
  deriving DecidableEq, Repr

/-- A row of the `users` table (app.py lines 25-32): id, name, email
(UNIQUE), pw_hash, salt. -/
structure UserRow where
  id : Nat
  name : String
  email : String
  pw_hash : String
  salt : String
  deriving DecidableEq, Repr

/-- A row of the `categories` table (app.py lines 33-39). -/
structure CategoryRow where
  id : Nat
  user_id : Nat
  name : String
  deriving DecidableEq, Repr

/-- The whole SQLite database state (the four tables created by
`init_db`, app.py lines 22-58), each as a list of rows in rowid order. -/
structure DB where
  users : List UserRow
  categories : List CategoryRow
  expenses : List ExpenseRecord
  budgets : List BudgetRow
  deriving DecidableEq, Repr

/-! ## Group-by-sum (pandas `groupby(key)["amount"].sum()`)

pandas `groupby` with the default `sort=True` returns one row per
distinct key, keys sorted ascending, each carrying the sum of the
grouped amounts.  `addToGroups` inserts one (key, amount) pair into an
association list kept strictly sorted by key, adding the amount onto an
existing key's sum; `groupSum` folds a whole list of pairs in. -/

/-- Insert one (key, amount) pair into a key-sorted association list,
accumulating the amount if the key is already present. -/
def addToGroups (k : String) (a : Rat) : List (String × Rat) → List (String × Rat)
  | [] => [(k, a)]
  | (k', s) :: rest =>
    if k = k' then (k', s + a) :: rest
    else if k < k' then (k, a) :: (k', s) :: rest
    else (k', s) :: addToGroups k a rest

/-- Group a list of (key, amount) pairs by key and sum the amounts per
key; output is sorted ascending by key, as pandas `groupby(sort=True)`
produces. -/
def groupSum : List (String × Rat) → List (String × Rat)
  | [] => []
  | (k, a) :: rest => addToGroups k a (groupSum rest)

/-! ## The dashboard aggregation (app.py lines 176-199)

`dashboard` computes, from the month's expense DataFrame `df`:
  total   = df["amount"].sum()                                  (line 176)
  by_cat  = df.groupby("category")["amount"].sum().reset_index()
              .sort_values("amount", ascending=False)           (line 178)
  top     = by_cat.iloc[0] when by_cat is nonempty              (line 180)
  merged  = by_cat.merge(budgets, how="left", on="category").fillna(0)
  over    = (amount_spent - amount_budget).clip(lower=0).sum()  (lines 185-186)
  daily   = df.groupby(df["dt"].dt.date)["amount"].sum()        (line 198)

pandas `sort_values(..., ascending=False)` computes an ascending
argsort of the amounts with the default `kind='quicksort'` (numpy
introsort) and reverses the resulting indexer
(`pandas.core.sorting.nargsort`).  That argsort is documented as NOT
stable: the source fixes no particular order among rows with equal
amounts.  A Lean model must still be some executable function; this one
uses a stable ascending insertion sort followed by `List.reverse`.
That is a modelling choice: it agrees with the source on the multiset
of rows and on the descending-amount order (all any theorem below
asserts for general inputs), while its tie order is guaranteed to match
the source only on small inputs, where numpy's introsort is its
insertion-sort base case (below the ~16-element cutoff), hence stable,
and the reversal puts equal amounts in reverse of the groupby's
ascending key order. -/

/-- The comparison `sort_values("amount", ...)` sorts by: the amount
column, non-strictly. -/
def amountLe (p q : String × Rat) : Prop := p.2 ≤ q.2

instance : DecidableRel amountLe := fun p q => inferInstanceAs (Decidable (p.2 ≤ q.2))

/-- The model's ascending-by-amount sort (see the section comment: the
source's quicksort argsort guarantees only the ascending amount order,
not a tie order; the insertion sort here is one executable refinement
of it, and only amount-order and multiset facts about it are claimed
for general inputs). -/
def sortAmountAsc (l : List (String × Rat)) : List (String × Rat) :=
  List.insertionSort amountLe l

/-- The unsorted per-category totals: `df.groupby("category")["amount"].sum()`
(app.py line 178), keys in ascending category order. -/
def by_cat_pairs (l : List ExpenseRecord) : List (String × Rat) :=
  groupSum (l.map fun e => (e.category, e.amount))

/-- `by_cat` of app.py line 178: per-category totals sorted descending
by amount (ascending stable sort then reverse, mirroring pandas
`sort_values(ascending=False)`). -/
def by_cat (l : List ExpenseRecord) : List (String × Rat) :=
  (sortAmountAsc (by_cat_pairs l)).reverse

/-- `total = df["amount"].sum()` (app.py line 176). -/
def total_spent (l : List ExpenseRecord) : Rat :=
  (l.map (fun e => e.amount)).sum

/-- The Top Category metric (app.py lines 179-180): the first row of
`by_cat` when there is one. -/
def top_category (l : List ExpenseRecord) : Option (String × Rat) :=
  (by_cat l).head?

/-- The budget amount joined onto a category by
`by_cat.merge(budgets, how="left", on="category").fillna(0)`
(app.py line 185): the matching budget row's amount, or 0 when the
category has no budget row (left join produces NaN, `fillna(0)` turns
it into 0).  Budgets are the (category, amount) rows `get_budgets`
returns for the owner and month; the UNIQUE(user_id, month, category)
constraint makes at most one row match. -/
def budget_for (c : String) (budgets : List (String × Rat)) : Rat :=
  match budgets.find? (fun q => decide (q.1 = c)) with
  | some q => q.2
  | none => 0

/-- The merged frame of app.py line 185: one row per `by_cat` row,
carrying (category, amount_spent, amount_budget). -/
def merged_rows (l : List ExpenseRecord) (budgets : List (String × Rat)) :
    List (String × Rat × Rat) :=
  (by_cat l).map (fun p => (p.1, p.2, budget_for p.1 budgets))

/-- `over = (merged["amount_spent"] - merged["amount_budget"]).clip(lower=0).sum()`
(app.py line 186).  The dashboard displays this metric only when the
month has budget rows (the guard at line 184); the formula itself is
computed uniformly here and agrees with that guard: with no budgets the
left join fills every budget with 0. -/
def over_budget (l : List ExpenseRecord) (budgets : List (String × Rat)) : Rat :=
  ((merged_rows l budgets).map (fun r => max (r.2.1 - r.2.2) 0)).sum

/-- Modelled from the spec's words (spec.md §3 invariant and §4.1 step
6): the sum, over each category present in category_totals, of
max(0, spent_in_category − budget_in_category), treating a category
absent from the budgets as having budget 0.  Stated independently of
`over_budget` so the two can be compared. -/
def over_budget_specFormula (l : List ExpenseRecord)
    (budgets : List (String × Rat)) : Rat :=
  ((by_cat l).map (fun p =>
    max 0 (p.2 - (match budgets.find? (fun q => decide (q.1 = p.1)) with
                  | some q => q.2
                  | none => 0)))).sum

/-- `daily = df.groupby(df["dt"].dt.date)["amount"].sum()` (app.py
line 198): per-date totals, dates ascending (groupby sorts keys). -/
def daily_totals (l : List ExpenseRecord) : List (String × Rat) :=
  groupSum (l.map fun e => (e.dt, e.amount))

/-- The sum of the amounts attached to one key in a list of
(key, amount) pairs. -/
def sumForKey (k : String) : List (String × Rat) → Rat
  | [] => 0
  | (k', a) :: rest => (if k' = k then a else 0) + sumForKey k rest

/-- The sum of the amount column of a list of (key, amount) pairs. -/
def sndSum (g : List (String × Rat)) : Rat := (g.map Prod.snd).sum

/-- The row order the spec claims for `category_totals`: descending by
amount, ties broken by category name ascending. -/
def claimedCatOrder (p q : String × Rat) : Prop :=
  q.2 < p.2 ∨ (p.2 = q.2 ∧ p.1 < q.1)

instance : DecidableRel claimedCatOrder := fun p q =>
  inferInstanceAs (Decidable (q.2 < p.2 ∨ (p.2 = q.2 ∧ p.1 < q.1)))

/-- The row order of the MODEL's `by_cat`: descending by amount, ties
by category name descending (the reverse of the groupby's ascending
key order).  The source exhibits this tie order only on small inputs
(numpy's insertion-sort regime); it is an internal invariant of the
model used to derive tie-order-independent facts — no claim theorem
asserts it for general inputs. -/
def actualCatOrder (p q : String × Rat) : Prop :=
  q.2 < p.2 ∨ (p.2 = q.2 ∧ q.1 < p.1)

instance : DecidableRel actualCatOrder := fun p q =>
  inferInstanceAs (Decidable (q.2 < p.2 ∨ (p.2 = q.2 ∧ q.1 < p.1)))

/-! ## The expense store read (`load_expenses`, app.py lines 89-103)

The SQL is
  SELECT id, dt, category, description, amount, payment FROM expenses
  WHERE user_id=? [AND substr(dt,1,7)=?] [AND category=?]
with NO ORDER BY clause: a SQLite table scan returns the matching rows
in rowid (insertion) order.  `substr(dt,1,7)` is the first 7 characters
of the date text, i.e. the 'YYYY-MM' month key.  The optional filters
are appended only when the month / category argument is present
(Python truthiness on the default None). -/

/-- The month filter: `substr(dt,1,7) = month` when a month is given,
otherwise no constraint. -/
def monthOk (month : Option String) (e : ExpenseRecord) : Bool :=
  match month with
  | some m => decide (e.dt.take 7 = m)
  | none => true

/-- The category filter: `category = ?` when a category is given,
otherwise no constraint. -/
def categoryOk (category : Option String) (e : ExpenseRecord) : Bool :=
  match category with
  | some c => decide (e.category = c)
  | none => true

/-- `load_expenses(user_id, month, category)` (app.py lines 89-103):
the rows of the expenses table with matching user_id and optional
month/category filters, in table (rowid) order — the query has no
ORDER BY.  (The `st.cache_data` wrapper only memoises this pure read.) -/
def load_expenses (table : List ExpenseRecord) (user_id : Nat)
    (month category : Option String) : List ExpenseRecord :=
  table.filter (fun e =>
    decide (e.user_id = user_id) && monthOk month e && categoryOk category e)

/-! ## Budget upsert (`upsert_budget`, app.py lines 118-124)

INSERT ... ON CONFLICT(user_id, month, category) DO UPDATE SET
amount=excluded.amount: when a row with the key exists its amount is
overwritten, otherwise a fresh row is inserted (AUTOINCREMENT id). -/

/-- The (user_id, month, category) key of a budget row, the column
triple of the UNIQUE constraint. -/
def budgetKey (b : BudgetRow) : Nat × String × String :=
  (b.user_id, b.month, b.category)

/-- Whether a budget row carries the given conflict key. -/
def budgetKeyMatches (u : Nat) (m c : String) (b : BudgetRow) : Bool :=
  decide (b.user_id = u) && decide (b.month = m) && decide (b.category = c)

/-- A fresh AUTOINCREMENT id: one more than the largest id in the
table. -/
def nextBudgetId (table : List BudgetRow) : Nat :=
  (table.map (fun b => b.id)).foldr Nat.max 0 + 1

/-- `upsert_budget(user_id, month, category, amount)` (app.py lines
118-124). -/
def upsert_budget (table : List BudgetRow) (u : Nat) (m c : String)
    (a : Rat) : List BudgetRow :=
  if table.any (budgetKeyMatches u m c) then
    table.map (fun b => if budgetKeyMatches u m c b then { b with amount := a } else b)
  else
    table ++ [⟨nextBudgetId table, u, m, c, a⟩]

/-- `get_budgets(user_id, month)` (app.py lines 126-130): the
(category, amount) pairs of the owner's budget rows for the month, in
table order. -/
def get_budgets (table : List BudgetRow) (u : Nat) (m : String) :
    List (String × Rat) :=
  (table.filter (fun b => decide (b.user_id = u) && decide (b.month = m))).map
    (fun b => (b.category, b.amount))

/-- `delete_expense(expense_id)` (app.py lines 113-116): DELETE FROM
expenses WHERE id=?.  The statement mentions only the expenses table
and only the id column — no owner check. -/
def delete_expense (db : DB) (expense_id : Nat) : DB :=
  { db with expenses := db.expenses.filter (fun e => decide (e.id ≠ expense_id)) }

/-! ## Users and authentication (app.py lines 60-87)

`hashlib.sha256(...).hexdigest()` is an external cryptographic
primitive; it is modelled as an arbitrary `hash : String → String`
parameter threaded through the definitions — every theorem below holds
for any choice of it. -/

/-- `make_hash(password, salt) = sha256(salt + password)` (app.py
lines 63-64). -/
def make_hash (hash : String → String) (password salt : String) : String :=
  hash (salt ++ password)

/-- A fresh AUTOINCREMENT user id. -/
def nextUserId (table : List UserRow) : Nat :=
  (table.map (fun u => u.id)).foldr Nat.max 0 + 1

/-- `create_user(name, email, password)` (app.py lines 66-71):
salt = sha256(email)[0:16], pw_hash = make_hash(password, salt), then
INSERT; the UNIQUE constraint on email makes the insert fail
(IntegrityError, modelled as `none`) when a user with the email
exists. -/
def create_user (hash : String → String) (users : List UserRow)
    (name email password : String) : Option (List UserRow) :=
  if users.any (fun u => decide (u.email = email)) then none
  else some (users ++ [⟨nextUserId users, name, email,
    make_hash hash password ((hash email).take 16), (hash email).take 16⟩])

/-- `get_user_by_email(email)` (app.py lines 73-79): the first row with
the email (`fetchone`), or None. -/
def get_user_by_email (users : List UserRow) (email : String) : Option UserRow :=
  users.find? (fun u => decide (u.email = email))

/-- The user dict `auth` returns on success (app.py line 86): id, name
and email only — no pw_hash, no salt. -/
structure AuthUser where
  id : Nat
  name : String
  email : String
  deriving DecidableEq, Repr

/-- `auth(email, password)` (app.py lines 81-87): None when no user has
the email; otherwise compare make_hash(password, salt) with the stored
pw_hash and return the id/name/email dict on a match, None otherwise. -/
def auth (hash : String → String) (users : List UserRow)
    (email password : String) : Option AuthUser :=
  match get_user_by_email users email with
  | none => none
  | some u =>
    if make_hash hash password u.salt = u.pw_hash then
      some ⟨u.id, u.name, u.email⟩
    else none

/-! ## Lemmas: keys, sums and order of the group-by -/

theorem mem_fst_addToGroups {k' : String} (k : String) (a : Rat)
    (g : List (String × Rat)) :
    k' ∈ (addToGroups k a g).map Prod.fst ↔ k' = k ∨ k' ∈ g.map Prod.fst := by
  induction g with
  | nil => simp [addToGroups]
  | cons p rest ih =>
    obtain ⟨k₂, s⟩ := p
    by_cases h1 : k = k₂
    · subst h1
      rw [addToGroups, if_pos rfl]
      simp only [List.map_cons, List.mem_cons]
      tauto
    · by_cases h2 : k < k₂
      · rw [addToGroups, if_neg h1, if_pos h2]
        simp only [List.map_cons, List.mem_cons]
      · rw [addToGroups, if_neg h1, if_neg h2]
        simp only [List.map_cons, List.mem_cons, ih]
        tauto

theorem pairwise_keys_addToGroups (k : String) (a : Rat)
    (g : List (String × Rat)) (h : g.Pairwise (fun p q => p.1 < q.1)) :
    (addToGroups k a g).Pairwise (fun p q => p.1 < q.1) := by
  induction g with
  | nil => simp [addToGroups]
  | cons p rest ih =>
    obtain ⟨k₂, s⟩ := p
    rw [List.pairwise_cons] at h
    obtain ⟨hall, hrest⟩ := h
    by_cases h1 : k = k₂
    · subst h1
      rw [addToGroups, if_pos rfl]
      exact List.pairwise_cons.mpr ⟨hall, hrest⟩
    · by_cases h2 : k < k₂
      · rw [addToGroups, if_neg h1, if_pos h2]
        refine List.pairwise_cons.mpr ⟨?_, List.pairwise_cons.mpr ⟨hall, hrest⟩⟩
        intro q hq
        rcases List.mem_cons.mp hq with rfl | hq'
        · exact h2
        · exact lt_trans h2 (hall q hq')
      · rw [addToGroups, if_neg h1, if_neg h2]
        refine List.pairwise_cons.mpr ⟨?_, ih hrest⟩
        intro q hq
        have hq1 : q.1 = k ∨ q.1 ∈ rest.map Prod.fst :=
          (mem_fst_addToGroups k a rest).mp (List.mem_map_of_mem Prod.fst hq)
        rcases hq1 with h3 | h3
        · rw [h3]
          exact lt_of_le_of_ne (not_lt.mp h2) (Ne.symm h1)
        · obtain ⟨q', hq', hq'eq⟩ := List.mem_map.mp h3
          exact hq'eq ▸ hall q' hq'

theorem pairwise_keys_groupSum (l : List (String × Rat)) :
    (groupSum l).Pairwise (fun p q => p.1 < q.1) := by
  induction l with
  | nil => simp [groupSum]
  | cons p rest ih =>
    obtain ⟨k, a⟩ := p
    rw [groupSum]
    exact pairwise_keys_addToGroups k a _ ih

theorem sndSum_addToGroups (k : String) (a : Rat) (g : List (String × Rat)) :
    sndSum (addToGroups k a g) = a + sndSum g := by
  induction g with
  | nil => simp [addToGroups, sndSum]
  | cons p rest ih =>
    obtain ⟨k₂, s⟩ := p
    by_cases h1 : k = k₂
    · subst h1
      rw [addToGroups, if_pos rfl]
      simp only [sndSum, List.map_cons, List.sum_cons]
      ring
    · by_cases h2 : k < k₂
      · rw [addToGroups, if_neg h1, if_pos h2]
        simp only [sndSum, List.map_cons, List.sum_cons]
      · rw [addToGroups, if_neg h1, if_neg h2]
        simp only [sndSum, List.map_cons, List.sum_cons] at ih ⊢
        rw [ih]
        ring

theorem sndSum_groupSum (l : List (String × Rat)) :
    sndSum (groupSum l) = sndSum l := by
  induction l with
  | nil => rfl
  | cons p rest ih =>
    obtain ⟨k, a⟩ := p
    rw [groupSum, sndSum_addToGroups, ih]
    simp [sndSum]

theorem sumForKey_addToGroups (k k' : String) (a : Rat)
    (g : List (String × Rat)) :
    sumForKey k (addToGroups k' a g) = (if k' = k then a else 0) + sumForKey k g := by
  induction g with
  | nil => simp [addToGroups, sumForKey]
  | cons p rest ih =>
    obtain ⟨k₂, s⟩ := p
    by_cases h1 : k' = k₂
    · subst h1
      rw [addToGroups, if_pos rfl]
      simp only [sumForKey]
      by_cases h3 : k' = k
      · rw [if_pos h3, if_pos h3, if_pos h3]
        ring
      · rw [if_neg h3, if_neg h3, if_neg h3]
        ring
    · by_cases h2 : k' < k₂
      · rw [addToGroups, if_neg h1, if_pos h2]
        simp only [sumForKey]
      · rw [addToGroups, if_neg h1, if_neg h2]
        simp only [sumForKey, ih]
        ring

theorem sumForKey_groupSum (k : String) (l : List (String × Rat)) :
    sumForKey k (groupSum l) = sumForKey k l := by
  induction l with
  | nil => rfl
  | cons p rest ih =>
    obtain ⟨k', a⟩ := p
    rw [groupSum, sumForKey_addToGroups, ih, sumForKey]

theorem sumForKey_eq_zero (k : String) (g : List (String × Rat))
    (h : ∀ p ∈ g, p.1 ≠ k) : sumForKey k g = 0 := by
  induction g with
  | nil => rfl
  | cons p rest ih =>
    obtain ⟨k₂, s⟩ := p
    rw [sumForKey, if_neg (h (k₂, s) (List.mem_cons_self _ _)), ih, add_zero]
    intro q hq
    exact h q (List.mem_cons_of_mem _ hq)

theorem snd_eq_sumForKey (g : List (String × Rat))
    (hg : g.Pairwise (fun p q => p.1 < q.1)) :
    ∀ p ∈ g, sumForKey p.1 g = p.2 := by
  induction g with
  | nil => intro p hp; cases hp
  | cons q rest ih =>
    rw [List.pairwise_cons] at hg
    obtain ⟨hall, hrest⟩ := hg
    intro p hp
    rcases List.mem_cons.mp hp with rfl | hp'
    · rw [sumForKey, if_pos rfl,
        sumForKey_eq_zero p.1 rest (fun r hr => ne_of_gt (hall r hr)), add_zero]
    · rw [sumForKey, if_neg (ne_of_lt (hall p hp')), zero_add]
      exact ih hrest p hp'

/-! ## Lemmas: order of `by_cat` -/

theorem pairwise_lex_orderedInsert (x : String × Rat) (g : List (String × Rat))
    (hg : g.Pairwise (fun p q => p.2 < q.2 ∨ (p.2 = q.2 ∧ p.1 < q.1)))
    (hx : ∀ y ∈ g, x.1 < y.1) :
    (List.orderedInsert amountLe x g).Pairwise
      (fun p q => p.2 < q.2 ∨ (p.2 = q.2 ∧ p.1 < q.1)) := by
  induction g with
  | nil => simp [List.orderedInsert]
  | cons y ys ih =>
    rw [List.pairwise_cons] at hg
    obtain ⟨hyall, hys⟩ := hg
    by_cases h : amountLe x y
    · rw [List.orderedInsert, if_pos h]
      refine List.pairwise_cons.mpr ⟨?_, List.pairwise_cons.mpr ⟨hyall, hys⟩⟩
      intro z hz
      rcases List.mem_cons.mp hz with rfl | hz'
      · rcases lt_or_eq_of_le h with h' | h'
        · exact Or.inl h'
        · exact Or.inr ⟨h', hx z (List.mem_cons_self z ys)⟩
      · rcases hyall z hz' with h2 | ⟨h2, _⟩
        · exact Or.inl (lt_of_le_of_lt h h2)
        · rcases lt_or_eq_of_le h with h' | h'
          · exact Or.inl (h'.trans_eq h2)
          · exact Or.inr ⟨h'.trans h2, hx z (List.mem_cons_of_mem y hz')⟩
    · rw [List.orderedInsert, if_neg h]
      have hx' : ∀ y' ∈ ys, x.1 < y'.1 :=
        fun y' hy' => hx y' (List.mem_cons_of_mem y hy')
      refine List.pairwise_cons.mpr ⟨?_, ih hys hx'⟩
      intro z hz
      rcases (List.mem_orderedInsert amountLe).mp hz with rfl | hz'
      · exact Or.inl (not_le.mp h)
      · exact hyall z hz'

theorem pairwise_lex_sortAmountAsc (l : List (String × Rat))
    (hl : l.Pairwise (fun p q => p.1 < q.1)) :
    (sortAmountAsc l).Pairwise (fun p q => p.2 < q.2 ∨ (p.2 = q.2 ∧ p.1 < q.1)) := by
  induction l with
  | nil => simp [sortAmountAsc, List.insertionSort]
  | cons x xs ih =>
    rw [List.pairwise_cons] at hl
    obtain ⟨hall, hxs⟩ := hl
    rw [sortAmountAsc, List.insertionSort]
    refine pairwise_lex_orderedInsert x _ (ih hxs) ?_
    intro y hy
    exact hall y ((List.mem_insertionSort amountLe).mp hy)

theorem by_cat_pairwise_actual (l : List ExpenseRecord) :
    (by_cat l).Pairwise actualCatOrder := by
  rw [by_cat, List.pairwise_reverse]
  have h := pairwise_lex_sortAmountAsc (by_cat_pairs l)
    (by rw [by_cat_pairs]; exact pairwise_keys_groupSum _)
  refine h.imp ?_
  intro p q hpq
  rcases hpq with h1 | ⟨h1, h2⟩
  · exact Or.inl h1
  · exact Or.inr ⟨h1.symm, h2⟩

theorem by_cat_perm_pairs (l : List ExpenseRecord) :
    List.Perm (by_cat l) (by_cat_pairs l) := by
  rw [by_cat]
  exact (List.reverse_perm _).trans (List.perm_insertionSort amountLe _)

/-! ## Helpers: budget lookup and nonemptiness -/

theorem budget_for_nil (c : String) : budget_for c [] = 0 := rfl

theorem budget_for_cons (c : String) (q : String × Rat) (b : List (String × Rat)) :
    budget_for c (q :: b) = if q.1 = c then q.2 else budget_for c b := by
  by_cases h : q.1 = c <;> simp [budget_for, List.find?, h]

theorem addToGroups_ne_nil (k : String) (a : Rat) (g : List (String × Rat)) :
    addToGroups k a g ≠ [] := by
  cases g with
  | nil => simp [addToGroups]
  | cons p rest =>
    obtain ⟨k₂, s⟩ := p
    rw [addToGroups]
    split_ifs <;> simp

theorem by_cat_ne_nil (l : List ExpenseRecord) (h : l ≠ []) : by_cat l ≠ [] := by
  obtain ⟨e, es, rfl⟩ := List.exists_cons_of_ne_nil h
  have h1 : by_cat_pairs (e :: es) ≠ [] := by
    simp only [by_cat_pairs, List.map_cons, groupSum]
    exact addToGroups_ne_nil _ _ _
  intro hcontra
  apply h1
  have hlen := (by_cat_perm_pairs (e :: es)).length_eq
  rw [hcontra] at hlen
  exact List.length_eq_zero.mp hlen.symm

/-! ## Claim C2 -/

/-- C2: for every sequence of expense records, the total_spent of the
aggregation (line 176) equals the sum of the per-category totals in
category_totals (line 178): summing the group sums gives the overall
sum. -/
theorem total_spent_eq_sum_category_totals (l : List ExpenseRecord) :
    ((by_cat l).map Prod.snd).sum = total_spent l := by
  have hperm := (by_cat_perm_pairs l).map Prod.snd
  rw [hperm.sum_eq]
  show sndSum (by_cat_pairs l) = total_spent l
  rw [by_cat_pairs, sndSum_groupSum]
  rw [sndSum, total_spent, List.map_map]
  rfl

/-- Witness for C2 at a concrete two-expense input. -/
theorem total_spent_eq_sum_category_totals_witness :
    ((by_cat [⟨1, 1, "2024-03-01", "Food", "", 300, "Card"⟩,
              ⟨2, 1, "2024-03-02", "Transport", "", 100, "Card"⟩]).map Prod.snd).sum =
      total_spent [⟨1, 1, "2024-03-01", "Food", "", 300, "Card"⟩,
                   ⟨2, 1, "2024-03-02", "Transport", "", 100, "Card"⟩] :=
  total_spent_eq_sum_category_totals _

/-! ## Claim C3 -/

/-- C3: for an empty sequence of expenses the aggregation values are
total_spent = 0, empty category_totals, no top_category and
over_budget_total = 0, whatever the budget rows are.  (In the app,
`dashboard` returns at line 174 before rendering anything for an empty
month; these are the values its formulas produce on empty input.) -/
theorem aggregate_empty_expenses (budgets : List (String × Rat)) :
    total_spent [] = 0 ∧ by_cat [] = [] ∧ top_category [] = none
      ∧ over_budget [] budgets = 0 :=
  ⟨rfl, rfl, rfl, rfl⟩

/-- Witness for C3 at a concrete nonempty budget list. -/
theorem aggregate_empty_expenses_witness :
    total_spent [] = 0 ∧ by_cat [] = [] ∧ top_category [] = none
      ∧ over_budget [] [("Food", 200), ("Transport", 50)] = 0 :=
  aggregate_empty_expenses [("Food", 200), ("Transport", 50)]

/-! ## Claim C4 -/

/-- C4: top_category is the first element of the sorted category_totals
(`by_cat.iloc[0]`, line 180), which carries a maximal summed amount; for
empty expenses it is none. -/
theorem top_category_max (l : List ExpenseRecord) :
    top_category l = (by_cat l).head?
      ∧ (l ≠ [] → ∃ t, top_category l = some t ∧ t ∈ by_cat l ∧
          ∀ p ∈ by_cat l, p.2 ≤ t.2)
      ∧ top_category ([] : List ExpenseRecord) = none := by
  refine ⟨rfl, ?_, rfl⟩
  intro hne
  have hbc : by_cat l ≠ [] := by_cat_ne_nil l hne
  obtain ⟨t, rest, heq⟩ := List.exists_cons_of_ne_nil hbc
  refine ⟨t, ?_, ?_, ?_⟩
  · rw [top_category, heq]
    rfl
  · rw [heq]
    exact List.mem_cons_self _ _
  · have hp := by_cat_pairwise_actual l
    rw [heq, List.pairwise_cons] at hp
    intro p hmem
    rw [heq] at hmem
    rcases List.mem_cons.mp hmem with rfl | hmem'
    · exact le_refl _
    · have h1 := hp.1 p hmem'
      simp only [actualCatOrder] at h1
      rcases h1 with h2 | ⟨h2, _⟩
      · exact le_of_lt h2
      · exact le_of_eq h2.symm

/-- Witness for C4: on expenses {Food: 300, Transport: 500} the top
category is Transport with amount 500, and it is maximal. -/
theorem top_category_max_witness :
    top_category [⟨1, 1, "2024-03-01", "Food", "", 300, "Card"⟩,
        ⟨2, 1, "2024-03-02", "Transport", "", 500, "Card"⟩] = some ("Transport", 500)
      ∧ ∃ t, top_category [⟨1, 1, "2024-03-01", "Food", "", 300, "Card"⟩,
          ⟨2, 1, "2024-03-02", "Transport", "", 500, "Card"⟩] = some t
        ∧ t ∈ by_cat [⟨1, 1, "2024-03-01", "Food", "", 300, "Card"⟩,
            ⟨2, 1, "2024-03-02", "Transport", "", 500, "Card"⟩]
        ∧ ∀ p ∈ by_cat [⟨1, 1, "2024-03-01", "Food", "", 300, "Card"⟩,
            ⟨2, 1, "2024-03-02", "Transport", "", 500, "Card"⟩], p.2 ≤ t.2 := by
  constructor
  · simp +decide [top_category, by_cat, by_cat_pairs, groupSum, addToGroups,
      sortAmountAsc, List.insertionSort, List.orderedInsert, amountLe]
  · exact (top_category_max _).2.1 (by simp)

/-! ## Claim C5 -/

/-- C5 counterexample: on two expenses of 100 in categories "A" and
"B", `by_cat` does NOT order the tie by category name ascending — it
yields B before A.  (On a two-element array numpy's introsort is its
insertion-sort base case, hence stable, so the source's behaviour here
is determined: the groupby emits A before B and pandas reverses the
ascending argsort.) -/
theorem by_cat_tie_not_name_ascending :
    ¬ (by_cat [⟨1, 1, "2024-03-01", "A", "", 100, "Card"⟩,
        ⟨2, 1, "2024-03-02", "B", "", 100, "Card"⟩]).Pairwise claimedCatOrder := by
  intro hcontra
  have heq : by_cat [⟨1, 1, "2024-03-01", "A", "", 100, "Card"⟩,
      ⟨2, 1, "2024-03-02", "B", "", 100, "Card"⟩] = [("B", 100), ("A", 100)] := by
    simp +decide [by_cat, by_cat_pairs, groupSum, addToGroups, sortAmountAsc,
      List.insertionSort, List.orderedInsert, amountLe]
  rw [heq, List.pairwise_cons] at hcontra
  have h1 := hcontra.1 ("A", 100) (List.mem_cons_self _ _)
  simp only [claimedCatOrder] at h1
  rcases h1 with h2 | ⟨h2, h3⟩
  · exact absurd h2 (lt_irrefl _)
  · exact absurd (String.lt_iff_toList_lt.mp h3) (by decide)

/-- C5 (amended): `by_cat` is sorted descending (non-strictly) by
amount.  The source guarantees no particular order among ties — pandas'
default quicksort argsort is documented as unstable — and in particular
not category-name ascending: the two-element tie of the counterexample
comes out B before A. -/
theorem by_cat_sorted_desc_amount (l : List ExpenseRecord) :
    (by_cat l).Pairwise (fun p q => q.2 ≤ p.2) := by
  refine (by_cat_pairwise_actual l).imp ?_
  intro p q hpq
  simp only [actualCatOrder] at hpq
  rcases hpq with h1 | ⟨h1, _⟩
  · exact le_of_lt h1
  · exact le_of_eq h1.symm

/-- Witness for C5 (amended) at the concrete tie input. -/
theorem by_cat_sorted_desc_amount_witness :
    (by_cat [⟨1, 1, "2024-03-01", "A", "", 100, "Card"⟩,
        ⟨2, 1, "2024-03-02", "B", "", 100, "Card"⟩]).Pairwise (fun p q => q.2 ≤ p.2) :=
  by_cat_sorted_desc_amount _

/-! ## Claim C1 -/

/-- C1 counterexample: on expenses {Food: 300, Transport: 100} and
budgets {Food: 200} the code's over-budget total is 200 (Food exceeds
by 100 and Transport's whole 100 counts against its missing budget of
0), not the 100 the claim's example asserts. -/
theorem over_budget_first_example_ne_100 :
    over_budget [⟨1, 1, "2024-03-01", "Food", "", 300, "Card"⟩,
        ⟨2, 1, "2024-03-02", "Transport", "", 100, "Card"⟩] [("Food", 200)] ≠ 100 := by
  simp +decide [over_budget, merged_rows, by_cat, by_cat_pairs, groupSum, addToGroups,
    sortAmountAsc, List.insertionSort, List.orderedInsert, amountLe,
    budget_for_cons, budget_for_nil]
  norm_num

/-- C1 (amended): over_budget equals the spec's formula — the sum over
each category present in category_totals of
max(0, spent − budget), a category absent from the budgets counting as
budget 0 and a budgeted category with no spend contributing nothing —
and on the spec's two examples it evaluates to 200 (not 100) and 0. -/
theorem over_budget_refines_spec_formula :
    (∀ (l : List ExpenseRecord) (budgets : List (String × Rat)),
        over_budget l budgets = over_budget_specFormula l budgets)
      ∧ (∀ (l : List ExpenseRecord) (budgets : List (String × Rat)) (c : String) (a : Rat),
          (∀ p ∈ by_cat l, p.1 ≠ c) →
            over_budget l ((c, a) :: budgets) = over_budget l budgets)
      ∧ over_budget [⟨1, 1, "2024-03-01", "Food", "", 300, "Card"⟩,
          ⟨2, 1, "2024-03-02", "Transport", "", 100, "Card"⟩] [("Food", 200)] = 200
      ∧ over_budget [⟨1, 1, "2024-03-05", "Food", "", 150, "Card"⟩] [("Food", 200)] = 0 := by
  refine ⟨fun l budgets => ?_, fun l budgets c a h => ?_, ?_, ?_⟩
  · rw [over_budget, merged_rows, over_budget_specFormula, List.map_map]
    congr 1
    apply List.map_congr_left
    intro p hp
    show max (p.2 - budget_for p.1 budgets) 0 = _
    rw [max_comm, budget_for]
  · rw [over_budget, merged_rows, over_budget, merged_rows, List.map_map, List.map_map]
    congr 1
    apply List.map_congr_left
    intro p hp
    show max (p.2 - budget_for p.1 ((c, a) :: budgets)) 0
        = max (p.2 - budget_for p.1 budgets) 0
    rw [budget_for_cons, if_neg (Ne.symm (h p hp))]
  · simp +decide [over_budget, merged_rows, by_cat, by_cat_pairs, groupSum, addToGroups,
      sortAmountAsc, List.insertionSort, List.orderedInsert, amountLe,
      budget_for_cons, budget_for_nil]
    norm_num
  · simp +decide [over_budget, merged_rows, by_cat, by_cat_pairs, groupSum, addToGroups,
      sortAmountAsc, List.insertionSort, List.orderedInsert, amountLe,
      budget_for_cons, budget_for_nil]

/-- Witness for C1 (amended): a budget on a category with no spend
(Transport, while only Food was spent on) leaves over_budget unchanged. -/
theorem over_budget_refines_spec_formula_witness :
    over_budget [⟨1, 1, "2024-03-05", "Food", "", 150, "Card"⟩]
        [("Transport", 50), ("Food", 200)]
      = over_budget [⟨1, 1, "2024-03-05", "Food", "", 150, "Card"⟩] [("Food", 200)] :=
  over_budget_refines_spec_formula.2.1 _ _ "Transport" 50
    (by simp +decide [by_cat, by_cat_pairs, groupSum, addToGroups,
      sortAmountAsc, List.insertionSort, List.orderedInsert, amountLe])

/-! ## Claim C6 -/

theorem mem_fst_groupSum {k : String} (l : List (String × Rat)) :
    k ∈ (groupSum l).map Prod.fst ↔ k ∈ l.map Prod.fst := by
  induction l with
  | nil => simp [groupSum]
  | cons p rest ih =>
    obtain ⟨k', a⟩ := p
    rw [groupSum, mem_fst_addToGroups, ih]
    simp only [List.map_cons, List.mem_cons]

theorem sumForKey_map_dt (k : String) (l : List ExpenseRecord) :
    sumForKey k (l.map fun e => (e.dt, e.amount))
      = ((l.filter (fun e => decide (e.dt = k))).map (fun e => e.amount)).sum := by
  induction l with
  | nil => rfl
  | cons e rest ih =>
    rw [List.map_cons, sumForKey, ih]
    by_cases h : e.dt = k
    · simp [List.filter_cons, h]
    · simp [List.filter_cons, h]

/-- C6: the daily-trend aggregation (app.py line 198) has one entry per
distinct date of the input, in strictly ascending date order, and each
entry's amount is the sum of the amounts of the input expenses on that
date.  (Dates are the ISO date strings stored in `dt`; their
lexicographic order is calendar order.) -/
theorem daily_totals_sorted_and_sums (l : List ExpenseRecord) :
    (daily_totals l).Pairwise (fun p q => p.1 < q.1)
      ∧ (∀ d : String, d ∈ (daily_totals l).map Prod.fst ↔ ∃ e ∈ l, e.dt = d)
      ∧ ∀ p ∈ daily_totals l,
          p.2 = ((l.filter (fun e => decide (e.dt = p.1))).map (fun e => e.amount)).sum := by
  refine ⟨?_, ?_, ?_⟩
  · rw [daily_totals]
    exact pairwise_keys_groupSum _
  · intro d
    rw [daily_totals, mem_fst_groupSum, List.map_map]
    constructor
    · intro hd
      obtain ⟨e, he, heq⟩ := List.mem_map.mp hd
      exact ⟨e, he, heq⟩
    · intro ⟨e, he, heq⟩
      exact List.mem_map.mpr ⟨e, he, heq⟩
  · intro p hp
    have h1 : sumForKey p.1 (daily_totals l) = p.2 :=
      snd_eq_sumForKey _ (by rw [daily_totals]; exact pairwise_keys_groupSum _) p hp
    rw [← h1, daily_totals, sumForKey_groupSum, sumForKey_map_dt]

/-- Witness for C6 at a concrete three-expense input with a repeated
date. -/
theorem daily_totals_sorted_and_sums_witness :
    (daily_totals [⟨1, 1, "2024-03-02", "Food", "", 5, "Card"⟩,
        ⟨2, 1, "2024-03-01", "Food", "", 7, "Card"⟩,
        ⟨3, 1, "2024-03-02", "Bills", "", 4, "Card"⟩]).Pairwise (fun p q => p.1 < q.1)
      ∧ (∀ d : String, d ∈ (daily_totals [⟨1, 1, "2024-03-02", "Food", "", 5, "Card"⟩,
          ⟨2, 1, "2024-03-01", "Food", "", 7, "Card"⟩,
          ⟨3, 1, "2024-03-02", "Bills", "", 4, "Card"⟩]).map Prod.fst ↔
            ∃ e ∈ [⟨1, 1, "2024-03-02", "Food", "", 5, "Card"⟩,
              ⟨2, 1, "2024-03-01", "Food", "", 7, "Card"⟩,
              ⟨3, 1, "2024-03-02", "Bills", "", 4, "Card"⟩], ExpenseRecord.dt e = d)
      ∧ ∀ p ∈ daily_totals [⟨1, 1, "2024-03-02", "Food", "", 5, "Card"⟩,
          ⟨2, 1, "2024-03-01", "Food", "", 7, "Card"⟩,
          ⟨3, 1, "2024-03-02", "Bills", "", 4, "Card"⟩],
          p.2 = (([⟨1, 1, "2024-03-02", "Food", "", 5, "Card"⟩,
            ⟨2, 1, "2024-03-01", "Food", "", 7, "Card"⟩,
            ⟨3, 1, "2024-03-02", "Bills", "", 4, "Card"⟩].filter
              (fun e => decide (ExpenseRecord.dt e = p.1))).map
                (fun e => ExpenseRecord.amount e)).sum :=
  daily_totals_sorted_and_sums _

/-! ## Claim C7 -/

/-- C7 counterexample: the `load_expenses` query has no ORDER BY, so
the rows come back in table (insertion) order; inserting a later date
first yields an output that is not sorted by date ascending. -/
theorem load_expenses_not_date_sorted :
    ¬ (load_expenses [⟨1, 1, "2024-03-10", "Food", "", 10, "Card"⟩,
        ⟨2, 1, "2024-03-05", "Food", "", 20, "Card"⟩] 1 none none).Pairwise
          (fun e e' => e.dt ≤ e'.dt) := by
  intro hcontra
  have heq : load_expenses [⟨1, 1, "2024-03-10", "Food", "", 10, "Card"⟩,
      ⟨2, 1, "2024-03-05", "Food", "", 20, "Card"⟩] 1 none none
      = [⟨1, 1, "2024-03-10", "Food", "", 10, "Card"⟩,
         ⟨2, 1, "2024-03-05", "Food", "", 20, "Card"⟩] := by
    simp +decide [load_expenses, monthOk, categoryOk]
  rw [heq, List.pairwise_cons] at hcontra
  have h1 := hcontra.1 _ (List.mem_cons_self _ _)
  exact absurd h1 (not_le.mpr (String.lt_iff_toList_lt.mpr (by decide)))

/-- C7 (amended): `load_expenses` returns exactly the rows of the given
owner that match the optional month/category filters, as a subsequence
of the table — i.e. in the table's insertion order, with no guarantee
of date-ascending order (the query has no ORDER BY). -/
theorem load_expenses_filters_rows (table : List ExpenseRecord) (u : Nat)
    (month category : Option String) :
    (∀ e, e ∈ load_expenses table u month category ↔
        e ∈ table ∧ e.user_id = u ∧ monthOk month e = true ∧ categoryOk category e = true)
      ∧ List.Sublist (load_expenses table u month category) table := by
  constructor
  · intro e
    rw [load_expenses, List.mem_filter]
    simp [Bool.and_eq_true, decide_eq_true_eq, and_assoc]
  · exact List.filter_sublist _

/-- Witness for C7 (amended): the filter characterisation at a concrete
two-owner table with a month filter. -/
theorem load_expenses_filters_rows_witness :
    (∀ e, e ∈ load_expenses [⟨1, 1, "2024-03-10", "Food", "", 10, "Card"⟩,
        ⟨2, 2, "2024-03-05", "Food", "", 20, "Card"⟩,
        ⟨3, 1, "2024-04-01", "Bills", "", 30, "Card"⟩] 1 (some "2024-03") none ↔
        e ∈ [⟨1, 1, "2024-03-10", "Food", "", 10, "Card"⟩,
          ⟨2, 2, "2024-03-05", "Food", "", 20, "Card"⟩,
          ⟨3, 1, "2024-04-01", "Bills", "", 30, "Card"⟩]
          ∧ ExpenseRecord.user_id e = 1 ∧ monthOk (some "2024-03") e = true
          ∧ categoryOk none e = true)
      ∧ List.Sublist (load_expenses [⟨1, 1, "2024-03-10", "Food", "", 10, "Card"⟩,
          ⟨2, 2, "2024-03-05", "Food", "", 20, "Card"⟩,
          ⟨3, 1, "2024-04-01", "Bills", "", 30, "Card"⟩] 1 (some "2024-03") none)
          [⟨1, 1, "2024-03-10", "Food", "", 10, "Card"⟩,
           ⟨2, 2, "2024-03-05", "Food", "", 20, "Card"⟩,
           ⟨3, 1, "2024-04-01", "Bills", "", 30, "Card"⟩] :=
  load_expenses_filters_rows _ _ _ _

/-! ## Generic counting helpers -/

theorem filter_length_split {α : Type} (p : α → Bool) (l : List α) :
    (l.filter p).length + (l.filter (fun a => ! p a)).length = l.length := by
  induction l with
  | nil => rfl
  | cons x xs ih =>
    rw [List.filter_cons, List.filter_cons]
    by_cases hx : p x = true
    · rw [if_pos hx, if_neg (by simp [hx])]
      simp only [List.length_cons]
      omega
    · have hx' : p x = false := by simpa using hx
      rw [if_neg hx, if_pos (by simp [hx'])]
      simp only [List.length_cons]
      omega

theorem length_filter_key_le_one {α β : Type} [DecidableEq β] (f : α → β) (b : β)
    (l : List α) (h : l.Pairwise (fun x y => f x ≠ f y)) :
    (l.filter (fun x => decide (f x = b))).length ≤ 1 := by
  induction l with
  | nil => simp
  | cons x xs ih =>
    rw [List.pairwise_cons] at h
    obtain ⟨hall, hxs⟩ := h
    rw [List.filter_cons]
    by_cases hx : f x = b
    · have hnil : xs.filter (fun y => decide (f y = b)) = [] :=
        List.filter_eq_nil_iff.mpr (fun y hy => by
          simp only [decide_eq_true_eq]
          rw [← hx]
          exact fun hcon => hall y hy hcon.symm)
      rw [if_pos (decide_eq_true hx), hnil]
      simp
    · rw [if_neg (by simp [hx])]
      exact ih hxs

theorem filter_map_congr {α : Type} (p : α → Bool) (f : α → α)
    (l : List α) (h : ∀ x, p (f x) = p x) :
    (l.map f).filter p = (l.filter p).map f := by
  induction l with
  | nil => rfl
  | cons x xs ih =>
    rw [List.map_cons, List.filter_cons, List.filter_cons, h x]
    by_cases hx : p x = true
    · rw [if_pos hx, if_pos hx, List.map_cons, ih]
    · rw [if_neg hx, if_neg hx, ih]

/-! ## Claim C8 -/

theorem budgetKeyMatches_iff (u : Nat) (m c : String) (b : BudgetRow) :
    budgetKeyMatches u m c b = true ↔ budgetKey b = (u, m, c) := by
  simp [budgetKeyMatches, budgetKey, Prod.ext_iff, and_assoc]

theorem budgetKeyMatches_eq_decide (u : Nat) (m c : String) (b : BudgetRow) :
    budgetKeyMatches u m c b = decide (budgetKey b = (u, m, c)) := by
  by_cases hk : budgetKey b = (u, m, c)
  · rw [(budgetKeyMatches_iff u m c b).mpr hk, decide_eq_true hk]
  · rw [decide_eq_false hk]
    rcases Bool.eq_false_or_eq_true (budgetKeyMatches u m c b) with hb | hb
    · exact absurd ((budgetKeyMatches_iff u m c b).mp hb) hk
    · exact hb

/-- Overwriting the amount of a row keeps its key. -/
theorem upd_key_pres (u : Nat) (m c : String) (a : Rat) (b : BudgetRow) :
    budgetKey (if budgetKeyMatches u m c b then { b with amount := a } else b)
      = budgetKey b := by
  by_cases hb : budgetKeyMatches u m c b = true
  · rw [if_pos hb]
    rfl
  · rw [if_neg hb]

/-- Overwriting the amount of a row keeps whether it matches any key. -/
theorem upd_matches_pres (u u' : Nat) (m c m' c' : String) (a : Rat) (b : BudgetRow) :
    budgetKeyMatches u' m' c'
        (if budgetKeyMatches u m c b then { b with amount := a } else b)
      = budgetKeyMatches u' m' c' b := by
  by_cases hb : budgetKeyMatches u m c b = true
  · rw [if_pos hb]
    rfl
  · rw [if_neg hb]

/-- C8: budget rows are unique per (user_id, month, category) and
`upsert_budget` preserves this: afterwards exactly one row carries the
upserted key, that row's amount is the new amount, and every row with a
different key is exactly as before (so an existing key is overwritten —
no second row — and an absent key is freshly inserted). -/
theorem upsert_budget_unique_key (table : List BudgetRow) (u : Nat) (m c : String)
    (a : Rat) (hinv : table.Pairwise (fun b b' => budgetKey b ≠ budgetKey b')) :
    (upsert_budget table u m c a).Pairwise (fun b b' => budgetKey b ≠ budgetKey b')
      ∧ ((upsert_budget table u m c a).filter (budgetKeyMatches u m c)).length = 1
      ∧ (∀ b ∈ upsert_budget table u m c a,
          budgetKeyMatches u m c b = true → b.amount = a)
      ∧ (upsert_budget table u m c a).filter (fun b => ! budgetKeyMatches u m c b)
          = table.filter (fun b => ! budgetKeyMatches u m c b) := by
  by_cases hany : table.any (budgetKeyMatches u m c) = true
  · -- UPDATE branch: a row with the key exists and is overwritten.
    rw [upsert_budget, if_pos hany]
    have hfilt := filter_map_congr (budgetKeyMatches u m c)
      (fun b => if budgetKeyMatches u m c b then { b with amount := a } else b) table
      (fun b => upd_matches_pres u u m c m c a b)
    refine ⟨?_, ?_, ?_, ?_⟩
    · refine hinv.map _ ?_
      intro x y hxy
      dsimp only
      rw [upd_key_pres u m c a x, upd_key_pres u m c a y]
      exact hxy
    · rw [hfilt, List.length_map]
      have hle : (table.filter (budgetKeyMatches u m c)).length ≤ 1 := by
        rw [List.filter_congr (fun b _ => budgetKeyMatches_eq_decide u m c b)]
        exact length_filter_key_le_one budgetKey (u, m, c) table hinv
      obtain ⟨b0, hb0, hb0m⟩ := List.any_eq_true.mp hany
      have hmem : b0 ∈ table.filter (budgetKeyMatches u m c) :=
        List.mem_filter.mpr ⟨hb0, hb0m⟩
      have hge : 0 < (table.filter (budgetKeyMatches u m c)).length :=
        List.length_pos.mpr (List.ne_nil_of_mem hmem)
      omega
    · intro b hb hbm
      obtain ⟨b0, hb0, rfl⟩ := List.mem_map.mp hb
      by_cases hb0m : budgetKeyMatches u m c b0 = true
      · rw [if_pos hb0m]
      · rw [if_neg hb0m] at hbm ⊢
        exact absurd hbm hb0m
    · have hfilt2 := filter_map_congr (fun b => ! budgetKeyMatches u m c b)
        (fun b => if budgetKeyMatches u m c b then { b with amount := a } else b) table
        (fun b => congrArg (fun t => ! t) (upd_matches_pres u u m c m c a b))
      rw [hfilt2]
      have hid : ∀ b ∈ table.filter (fun b => ! budgetKeyMatches u m c b),
          (if budgetKeyMatches u m c b then { b with amount := a } else b) = b := by
        intro b hb
        have h2 := (List.mem_filter.mp hb).2
        rw [if_neg (by simp only [Bool.not_eq_true'] at h2; simp [h2])]
      rw [List.map_congr_left hid]
      simp
  · -- INSERT branch: no row with the key exists; a fresh row is appended.
    rw [upsert_budget, if_neg hany]
    have hnone : ∀ b ∈ table, budgetKeyMatches u m c b = false := by
      intro b hb
      rcases Bool.eq_false_or_eq_true (budgetKeyMatches u m c b) with h | h
      · exact absurd (List.any_eq_true.mpr ⟨b, hb, h⟩) hany
      · exact h
    have hnew : budgetKeyMatches u m c (⟨nextBudgetId table, u, m, c, a⟩ : BudgetRow) = true := by
      simp [budgetKeyMatches]
    refine ⟨?_, ?_, ?_, ?_⟩
    · rw [List.pairwise_append]
      refine ⟨hinv, List.pairwise_singleton _ _, ?_⟩
      intro x hx y hy
      rw [List.mem_singleton.mp hy]
      intro hk
      have : budgetKeyMatches u m c x = true :=
        (budgetKeyMatches_iff u m c x).mpr (by rw [hk]; rfl)
      rw [hnone x hx] at this
      exact Bool.false_ne_true this
    · rw [List.filter_append, List.filter_eq_nil_iff.mpr
        (fun b hb => by simp [hnone b hb]), List.nil_append, List.filter_cons,
        if_pos hnew]
      rfl
    · intro b hb hbm
      rcases List.mem_append.mp hb with hb' | hb'
      · rw [hnone b hb'] at hbm
        exact absurd hbm Bool.false_ne_true
      · rw [List.mem_singleton.mp hb']
    · rw [List.filter_append, List.filter_cons, if_neg (by simp [hnew]),
        List.filter_nil, List.append_nil]

/-- Witness for C8: overwriting the existing (1, "2024-03", Food) key on
a one-row table. -/
theorem upsert_budget_unique_key_witness :
    (upsert_budget [⟨1, 1, "2024-03", "Food", 100⟩] 1 "2024-03" "Food" 250).Pairwise
        (fun b b' => budgetKey b ≠ budgetKey b')
      ∧ ((upsert_budget [⟨1, 1, "2024-03", "Food", 100⟩] 1 "2024-03" "Food" 250).filter
          (budgetKeyMatches 1 "2024-03" "Food")).length = 1
      ∧ (∀ b ∈ upsert_budget [⟨1, 1, "2024-03", "Food", 100⟩] 1 "2024-03" "Food" 250,
          budgetKeyMatches 1 "2024-03" "Food" b = true → BudgetRow.amount b = 250)
      ∧ (upsert_budget [⟨1, 1, "2024-03", "Food", 100⟩] 1 "2024-03" "Food" 250).filter
            (fun b => ! budgetKeyMatches 1 "2024-03" "Food" b)
          = [(⟨1, 1, "2024-03", "Food", 100⟩ : BudgetRow)].filter
            (fun b => ! budgetKeyMatches 1 "2024-03" "Food" b) :=
  upsert_budget_unique_key [⟨1, 1, "2024-03", "Food", 100⟩] 1 "2024-03" "Food" 250
    (List.pairwise_singleton _ _)

/-! ## Claim C9 -/

/-- C9: `delete_expense` removes exactly the expense rows whose id is
the given id — at most one row when ids are unique, as the PRIMARY KEY
guarantees — keeps the surviving expenses in order, leaves the users,
categories and budgets tables untouched, and checks no ownership: the
filter predicate mentions only the id. -/
theorem delete_expense_frame (db : DB) (eid : Nat) :
    (delete_expense db eid).users = db.users
      ∧ (delete_expense db eid).categories = db.categories
      ∧ (delete_expense db eid).budgets = db.budgets
      ∧ (∀ e, e ∈ (delete_expense db eid).expenses ↔ e ∈ db.expenses ∧ e.id ≠ eid)
      ∧ List.Sublist (delete_expense db eid).expenses db.expenses
      ∧ (db.expenses.Pairwise (fun e e' => e.id ≠ e'.id) →
          db.expenses.length ≤ (delete_expense db eid).expenses.length + 1) := by
  refine ⟨rfl, rfl, rfl, ?_, ?_, ?_⟩
  · intro e
    show e ∈ db.expenses.filter (fun e => decide (e.id ≠ eid)) ↔ _
    rw [List.mem_filter]
    simp
  · exact List.filter_sublist _
  · intro hids
    show db.expenses.length ≤ (db.expenses.filter (fun e => decide (e.id ≠ eid))).length + 1
    have hsplit := filter_length_split (fun e => decide (e.id = eid)) db.expenses
    have hle : (db.expenses.filter (fun e => decide (e.id = eid))).length ≤ 1 :=
      length_filter_key_le_one (fun e => e.id) eid db.expenses hids
    have heq : db.expenses.filter (fun e => ! decide (e.id = eid))
        = db.expenses.filter (fun e => decide (e.id ≠ eid)) := by
      apply List.filter_congr
      intro e _
      simp
    rw [heq] at hsplit
    omega

/-- Witness for C9: deleting id 5 from a store where that expense
belongs to user 2 removes it (no owner check) and leaves the other
tables alone. -/
theorem delete_expense_frame_witness :
    (delete_expense ⟨[⟨1, "Ann", "a@x", "h", "s"⟩], [⟨1, 2, "Food"⟩],
        [⟨5, 2, "2024-03-01", "Food", "", 10, "Card"⟩,
         ⟨6, 1, "2024-03-02", "Bills", "", 20, "Card"⟩], [⟨1, 2, "2024-03", "Food", 100⟩]⟩
        5).users = [⟨1, "Ann", "a@x", "h", "s"⟩]
      ∧ (delete_expense ⟨[⟨1, "Ann", "a@x", "h", "s"⟩], [⟨1, 2, "Food"⟩],
          [⟨5, 2, "2024-03-01", "Food", "", 10, "Card"⟩,
           ⟨6, 1, "2024-03-02", "Bills", "", 20, "Card"⟩], [⟨1, 2, "2024-03", "Food", 100⟩]⟩
          5).categories = [⟨1, 2, "Food"⟩]
      ∧ (delete_expense ⟨[⟨1, "Ann", "a@x", "h", "s"⟩], [⟨1, 2, "Food"⟩],
          [⟨5, 2, "2024-03-01", "Food", "", 10, "Card"⟩,
           ⟨6, 1, "2024-03-02", "Bills", "", 20, "Card"⟩], [⟨1, 2, "2024-03", "Food", 100⟩]⟩
          5).budgets = [⟨1, 2, "2024-03", "Food", 100⟩]
      ∧ (∀ e, e ∈ (delete_expense ⟨[⟨1, "Ann", "a@x", "h", "s"⟩], [⟨1, 2, "Food"⟩],
          [⟨5, 2, "2024-03-01", "Food", "", 10, "Card"⟩,
           ⟨6, 1, "2024-03-02", "Bills", "", 20, "Card"⟩], [⟨1, 2, "2024-03", "Food", 100⟩]⟩
          5).expenses ↔ e ∈ [⟨5, 2, "2024-03-01", "Food", "", 10, "Card"⟩,
           ⟨6, 1, "2024-03-02", "Bills", "", 20, "Card"⟩] ∧ ExpenseRecord.id e ≠ 5)
      ∧ List.Sublist (delete_expense ⟨[⟨1, "Ann", "a@x", "h", "s"⟩], [⟨1, 2, "Food"⟩],
          [⟨5, 2, "2024-03-01", "Food", "", 10, "Card"⟩,
           ⟨6, 1, "2024-03-02", "Bills", "", 20, "Card"⟩], [⟨1, 2, "2024-03", "Food", 100⟩]⟩
          5).expenses [⟨5, 2, "2024-03-01", "Food", "", 10, "Card"⟩,
           ⟨6, 1, "2024-03-02", "Bills", "", 20, "Card"⟩]
      ∧ (([⟨5, 2, "2024-03-01", "Food", "", 10, "Card"⟩,
          ⟨6, 1, "2024-03-02", "Bills", "", 20, "Card"⟩] : List ExpenseRecord).Pairwise
            (fun e e' => e.id ≠ e'.id) →
          ([⟨5, 2, "2024-03-01", "Food", "", 10, "Card"⟩,
            ⟨6, 1, "2024-03-02", "Bills", "", 20, "Card"⟩] : List ExpenseRecord).length ≤
            (delete_expense ⟨[⟨1, "Ann", "a@x", "h", "s"⟩], [⟨1, 2, "Food"⟩],
              [⟨5, 2, "2024-03-01", "Food", "", 10, "Card"⟩,
               ⟨6, 1, "2024-03-02", "Bills", "", 20, "Card"⟩],
              [⟨1, 2, "2024-03", "Food", 100⟩]⟩ 5).expenses.length + 1) := by
  exact delete_expense_frame ⟨[⟨1, "Ann", "a@x", "h", "s"⟩], [⟨1, 2, "Food"⟩],
    [⟨5, 2, "2024-03-01", "Food", "", 10, "Card"⟩,
     ⟨6, 1, "2024-03-02", "Bills", "", 20, "Card"⟩], [⟨1, 2, "2024-03", "Food", 100⟩]⟩ 5

/-! ## Claim C10 -/

theorem find?_append_right {α : Type} (p : α → Bool) (l₁ l₂ : List α)
    (h : ∀ x ∈ l₁, p x = false) : (l₁ ++ l₂).find? p = l₂.find? p := by
  induction l₁ with
  | nil => rfl
  | cons x xs ih =>
    rw [List.cons_append, List.find?_cons, h x (List.mem_cons_self _ _)]
    exact ih (fun y hy => h y (List.mem_cons_of_mem _ hy))

/-- When no stored user has the email, auth returns None (app.py lines
82-84). -/
theorem auth_none_of_no_user (hash : String → String) (users : List UserRow)
    (email password : String) (h : ∀ u ∈ users, u.email ≠ email) :
    auth hash users email password = none := by
  have hnone : users.find? (fun u => decide (u.email = email)) = none :=
    List.find?_eq_none.mpr (fun u hu => by simp [h u hu])
  rw [auth, get_user_by_email, hnone]

/-- Looking up the freshly inserted user by email finds it: every
earlier row has a different email and `fetchone` takes the first
match. -/
theorem get_user_append_new (users : List UserRow) (email : String) (new : UserRow)
    (hfree : ∀ u ∈ users, u.email ≠ email) (hnew : new.email = email) :
    get_user_by_email (users ++ [new]) email = some new := by
  rw [get_user_by_email,
    find?_append_right _ users _ (fun u hu => by simp [hfree u hu])]
  simp [List.find?, hnew]

/-- Evaluating `auth` when the looked-up user's stored hash is the
salted hash of the supplied password: the comparison at app.py line 85
succeeds. -/
theorem auth_found_hashes_eq (hash : String → String) (users : List UserRow)
    (email password : String) (i : Nat) (n s : String)
    (hu : get_user_by_email users email = some ⟨i, n, email, make_hash hash password s, s⟩) :
    auth hash users email password = some ⟨i, n, email⟩ := by
  rw [auth, hu]
  dsimp only
  rw [if_pos rfl]

/-- Evaluating `auth` when the salted hash of the supplied password
differs from the stored one: the comparison at app.py line 85 fails. -/
theorem auth_found_hashes_ne (hash : String → String) (users : List UserRow)
    (email p' : String) (i : Nat) (n pw s : String)
    (hu : get_user_by_email users email = some ⟨i, n, email, pw, s⟩)
    (hne : make_hash hash p' s ≠ pw) :
    auth hash users email p' = none := by
  rw [auth, hu]
  dsimp only
  rw [if_neg hne]

/-- C10: after a successful registration on a store with no user of the
email, login with the same password succeeds and returns only id, name
and email (the `AuthUser` shape has no pw_hash or salt field); login
with any password whose salted hash differs from the stored one fails;
and login under an email with no user record fails. -/
theorem create_user_auth_roundtrip (hash : String → String)
    (users : List UserRow) (name email password : String)
    (hfree : ∀ u ∈ users, u.email ≠ email) :
    ∃ users', create_user hash users name email password = some users'
      ∧ (∃ a, auth hash users' email password = some a
            ∧ a.name = name ∧ a.email = email)
      ∧ (∀ p', make_hash hash p' ((hash email).take 16)
            ≠ make_hash hash password ((hash email).take 16) →
          auth hash users' email p' = none)
      ∧ (∀ e₂ p₂, (∀ u ∈ users', u.email ≠ e₂) → auth hash users' e₂ p₂ = none) := by
  have hany : users.any (fun u => decide (u.email = email)) = false :=
    List.any_eq_false.mpr (fun u hu => by simp [hfree u hu])
  have hget := get_user_append_new users email
    ⟨nextUserId users, name, email,
      make_hash hash password ((hash email).take 16), (hash email).take 16⟩ hfree rfl
  refine ⟨users ++ [⟨nextUserId users, name, email,
      make_hash hash password ((hash email).take 16), (hash email).take 16⟩],
    ?_, ?_, ?_, ?_⟩
  · rw [create_user, if_neg (by simp [hany])]
  · exact ⟨⟨nextUserId users, name, email⟩,
      auth_found_hashes_eq hash _ email password _ _ _ hget, rfl, rfl⟩
  · intro p' hneq
    exact auth_found_hashes_ne hash _ email p' _ _ _ _ hget hneq
  · intro e₂ p₂ h2
    exact auth_none_of_no_user hash _ e₂ p₂ h2

/-- Witness for C10 with the identity function standing in for the
hash, an empty user store and a concrete registration. -/
theorem create_user_auth_roundtrip_witness :
    ∃ users', create_user (fun s => s) [] "Alice" "alice@example.com" "pw1" = some users'
      ∧ (∃ a, auth (fun s => s) users' "alice@example.com" "pw1" = some a
            ∧ AuthUser.name a = "Alice" ∧ AuthUser.email a = "alice@example.com")
      ∧ (∀ p', make_hash (fun s => s) p' (((fun s : String => s) "alice@example.com").take 16)
            ≠ make_hash (fun s => s) "pw1" (((fun s : String => s) "alice@example.com").take 16) →
          auth (fun s => s) users' "alice@example.com" p' = none)
      ∧ (∀ e₂ p₂, (∀ u ∈ users', UserRow.email u ≠ e₂) →
          auth (fun s => s) users' e₂ p₂ = none) :=
  create_user_auth_roundtrip (fun s => s) [] "Alice" "alice@example.com" "pw1"
    (by simp)

end ExpenseApp
